import Mathlib

/-!
Verification model of the AutoStream conversational agent (main.py).

The source program is a single-session dialogue controller: an intent
classifier over keyword substrings, a knowledge-base lookup, an email
validator, a bounded rolling history, and a lead-capture state machine
that calls a capture tool exactly once when the three lead fields
(name, email, platform) are collected.

The turn handler is embedded as a straight-line script of primitive
operations (turn_script) executed by a small interpreter (runOps), so
that the order of state mutations relative to the capture call is a
provable property of the model, mirroring statement order in the code.
-/

namespace AutoStream

/-- Single-quote character, used to build message strings that contain
an apostrophe. -/
def sq : String := String.mk [Char.ofNat 39]

/-- Model of Python str.strip() on the character list: remove leading
and trailing whitespace. -/
def stripCore (cs : List Char) : List Char :=
  List.rdropWhile Char.isWhitespace (cs.dropWhile Char.isWhitespace)

/-- Model of Python str.strip() on strings. -/
def strip (s : String) : String := String.mk (stripCore s.data)

/-- Lowercased character list of a string: model of Python str.lower()
for the ASCII texts this program matches on. -/
def lowerL (s : String) : List Char := s.data.map Char.toLower

/-- Model of the Python substring test (tok in t), on character lists. -/
def containsSub (t : List Char) (tok : String) : Bool :=
  decide (tok.data <:+: t)

/-! ### Email validator: EMAIL_RE = [^@]+@[^@]+\.[^@]+, fullmatch -/

/-- Matcher for the part of the email pattern after the at sign:
[^@]+\.[^@]+ as a full match, i.e. no at sign anywhere and a dot at an
interior position. -/
def afterAt (r : List Char) : Bool :=
  decide ('@' ∉ r) && decide ('.' ∈ (r.drop 1).dropLast)

/-- Scanner for [^@]*@ followed by afterAt: consumes characters up to
the first at sign. -/
def scanAt : List Char → Bool
  | [] => false
  | c :: cs => if c = '@' then afterAt cs else scanAt cs

/-- Full-match test for the regex [^@]+@[^@]+\.[^@]+ (the first
character class must be non-empty, so the string must not start with
the at sign). -/
def emailCore (cs : List Char) : Bool :=
  match cs with
  | [] => false
  | c :: rest => if c = '@' then false else scanAt (c :: rest)

/-- Model of is_valid_email from main.py: fullmatch of EMAIL_RE against
the stripped input. -/
def is_valid_email (s : String) : Bool :=
  emailCore (stripCore s.data)

/-! ### Intent detection (detect_intent, high-intent first) -/

/-- Intent labels returned by detect_intent. -/
inductive Intent where
  | high_intent
  | pricing
  | greeting
  | other
deriving DecidableEq, Repr

/-- High-intent keyword list from detect_intent. -/
def high_intent_tokens : List String :=
  ["sign up", "signup", "i want to sign", "i want to try", "i want to sign up",
   "i" ++ sq ++ "ll take", "i will take", "i want to subscribe", "subscribe", "buy",
   "get started", "get pro", "start trial", "pro plan", "i want the pro", "i want pro"]

/-- Pricing keyword list from detect_intent. -/
def pricing_tokens : List String :=
  ["price", "pricing", "cost", "plan", "features", "basic plan", "pro plan"]

/-- Greeting keyword list from detect_intent. -/
def greeting_tokens : List String :=
  ["hi", "hello", "hey", "good morning", "good evening"]

/-- Model of detect_intent from main.py: lowercase the text, then test
the keyword groups in priority order high_intent, pricing, greeting,
falling through to other. -/
def detect_intent (text : String) : Intent :=
  let t := lowerL text
  if high_intent_tokens.any (fun tok => containsSub t tok) then Intent.high_intent
  else if pricing_tokens.any (fun tok => containsSub t tok) then Intent.pricing
  else if greeting_tokens.any (fun tok => containsSub t tok) then Intent.greeting
  else Intent.other

/-! ### Knowledge base and RAG answers -/

/-- One pricing plan entry of the knowledge document; absent keys are
none (Python dict.get returning None). -/
structure PlanInfo where
  price : Option String
  videos : Option String
  resolution : Option String
  features : List String
deriving DecidableEq, Repr

/-- The policies section of the knowledge document. -/
structure Policies where
  refund : Option String
  support : Option String
deriving DecidableEq, Repr

/-- The knowledge document loaded at startup (rag_knowledge.json),
restricted to the keys the program reads. -/
structure KB where
  basic : PlanInfo
  pro : PlanInfo
  policies : Policies
deriving DecidableEq, Repr

/-- Rendering of a possibly absent value inside a Python f-string:
None prints as the four letters None. -/
def fmtOpt : Option String → String
  | some s => s
  | none => "None"

/-- Model of rag_pricing_answer from main.py. -/
def rag_pricing_answer (kb : KB) : String :=
  let basic_text := "Basic Plan: " ++ fmtOpt kb.basic.price ++ " , "
    ++ fmtOpt kb.basic.videos ++ " , " ++ fmtOpt kb.basic.resolution
  let pro_text := "Pro Plan: " ++ fmtOpt kb.pro.price ++ " , "
    ++ fmtOpt kb.pro.videos ++ " , " ++ fmtOpt kb.pro.resolution
  let pro_text2 :=
    if kb.pro.features.isEmpty then pro_text
    else pro_text ++ " (Features: " ++ String.intercalate ", " kb.pro.features ++ ")"
  basic_text ++ "\n" ++ pro_text2

/-- Model of rag_policy_answer from main.py. -/
def rag_policy_answer (kb : KB) : String :=
  "Refund policy: " ++ fmtOpt kb.policies.refund ++ ". Support: "
    ++ fmtOpt kb.policies.support ++ "."

/-! ### LLM fallback -/

/-- Outcome of one call to the external fallback responder: a plain
string, a response object (with an optional content attribute and a
str() rendering), or a raised exception. -/
inductive LLMResp where
  | str (s : String)
  | obj (content : Option String) (asString : String)
  | raises
deriving DecidableEq, Repr

/-- The global llm handle: none when the client could not be built
(missing dependency or key), otherwise the responder function. -/
def LLM : Type := Option (String → LLMResp)

/-- Fixed degraded-mode reply when the llm handle is absent. -/
def llm_unavailable_msg : String :=
  "I can help with pricing or sign-up. Ask " ++ sq ++ "Tell me about pricing" ++ sq
    ++ " or " ++ sq ++ "I want to sign up for Pro" ++ sq ++ "."

/-- Fixed reply when the responder raises. -/
def llm_error_msg : String :=
  "Sorry — temporary LLM error. I can still help with pricing or sign-up."

/-- Model of llm_reply from main.py: absorb absence and exceptions into
fixed messages; accept either a plain string or an object with a
content attribute (falling back to its str() form). -/
def llm_reply (llm : LLM) (prompt : String) : String :=
  match llm with
  | none => llm_unavailable_msg
  | some f =>
    match f prompt with
    | LLMResp.str s => s
    | LLMResp.obj (some c) _ => c
    | LLMResp.obj none s => s
    | LLMResp.raises => llm_error_msg

/-! ### Agent state -/

/-- The three lead fields, the possible values of awaiting_field. -/
inductive Field where
  | name
  | email
  | platform
deriving DecidableEq, Repr

/-- The lead_data dict: only the keys name, email, platform are ever
written; a key absent from the dict is none. -/
structure Lead where
  name : Option String
  email : Option String
  platform : Option String
deriving DecidableEq, Repr

/-- The empty lead_data dict. -/
def Lead.empty : Lead := ⟨none, none, none⟩

/-- Write one field of the lead_data dict. -/
def Lead.set (l : Lead) : Field → String → Lead
  | Field.name, v => { l with name := some v }
  | Field.email, v => { l with email := some v }
  | Field.platform, v => { l with platform := some v }

/-- Read one field of the lead_data dict. -/
def Lead.get (l : Lead) : Field → Option String
  | Field.name => l.name
  | Field.email => l.email
  | Field.platform => l.platform

/-- Model of choose_next_field from main.py: first key among name,
email, platform missing from the dict, else none. -/
def choose_next_field (l : Lead) : Option Field :=
  if l.name = none then some Field.name
  else if l.email = none then some Field.email
  else if l.platform = none then some Field.platform
  else none

/-- History capacity: the deque maxlen (history_turns default 6). -/
def history_turns : Nat := 6

/-- Model of AgentState.save_turn on the memory deque: append on the
right, dropping from the left when over capacity (deque maxlen). -/
def save_turn (m : List (String × String)) (u a : String) : List (String × String) :=
  let m2 := m ++ [(u, a)]
  m2.drop (m2.length - history_turns)

/-- Model of AgentState: memory deque, lead_data dict, awaiting_field. -/
structure AgentState where
  memory : List (String × String)
  lead_data : Lead
  awaiting_field : Option Field
deriving DecidableEq, Repr

/-- The state built by AgentState.__init__. -/
def initState : AgentState := ⟨[], Lead.empty, none⟩

/-! ### Turn handler (handle_user_input) as an op script plus interpreter -/

/-- Fixed re-prompt for an invalid email. -/
def invalid_email_msg : String :=
  "That doesn" ++ sq ++ "t look like a valid email. Please provide a valid email address."

/-- Fixed prompts for the next field to collect (prompt_map). -/
def prompt_map : Field → String
  | Field.name => "Great — what" ++ sq ++ "s your full name?"
  | Field.email => "Thanks. What" ++ sq ++ "s your email?"
  | Field.platform => "Which creator platform do you use? (YouTube, Instagram, etc.)"

/-- Acknowledgment emitted on the funnel-completing turn, naming the
collected lead name. -/
def ack_msg (n : String) : String := "Thanks " ++ n ++ "! Submitting your details now..."

/-- Closing line emitted after the capture call. -/
def final_ack_msg : String :=
  "Done — our team will reach out soon. Would you like a setup guide?"

/-- Fixed greeting reply. -/
def greeting_msg : String := "👋 Hi! I can tell you about pricing or help you sign up for Pro."

/-- Fixed reply entering the lead-capture flow on high intent. -/
def high_intent_msg : String :=
  "Awesome — I can help get you started. What" ++ sq ++ "s your full name?"

/-- Confirmation line printed inside mock_lead_capture. -/
def lead_captured_msg (n e p : String) : String :=
  "\n✅ Lead captured successfully: " ++ n ++ ", " ++ e ++ ", " ++ p ++ "\n"

/-- Keywords that switch a pricing-intent turn to the policy answer. -/
def policy_tokens : List String := ["refund", "support", "policy"]

/-- Reply of a pricing-intent turn: the policy answer when the message
also mentions refund, support or policy, else the pricing answer. -/
def pricing_reply (kb : KB) (u : String) : String :=
  if policy_tokens.any (fun tok => containsSub (lowerL u) tok) then rag_policy_answer kb
  else rag_pricing_answer kb

/-- Primitive operations of one turn of handle_user_input, in the
statement order of the source. -/
inductive Op where
  | print (s : String)
  | saveTurn (u a : String)
  | setAwaiting (f : Option Field)
  | setLead (f : Field) (v : String)
  | resetLead
  | callCapture (n e p : Option String)
deriving DecidableEq, Repr

/-- Observable events of a turn: console prints and the capture tool
call. The capture event records the values passed and the value of
awaiting_field at the moment of the call. -/
inductive Event where
  | print (s : String)
  | capture (n e p : Option String) (pendingAtCall : Option Field)
deriving DecidableEq, Repr

/-- Interpreter for one primitive operation. The capture call emits a
capture event (recording the live awaiting_field) followed by the
print that mock_lead_capture performs. -/
def runOp (s : AgentState) : Op → AgentState × List Event
  | Op.print m => (s, [Event.print m])
  | Op.saveTurn u a => ({ s with memory := save_turn s.memory u a }, [])
  | Op.setAwaiting f => ({ s with awaiting_field := f }, [])
  | Op.setLead f v => ({ s with lead_data := s.lead_data.set f v }, [])
  | Op.resetLead => ({ s with lead_data := Lead.empty }, [])
  | Op.callCapture n e p =>
      (s, [Event.capture n e p s.awaiting_field,
           Event.print (lead_captured_msg (fmtOpt n) (fmtOpt e) (fmtOpt p))])

/-- Run a list of operations left to right, collecting events. -/
def runOps (s : AgentState) : List Op → AgentState × List Event
  | [] => (s, [])
  | op :: ops =>
    let r := runOp s op
    let rest := runOps r.1 ops
    (rest.1, r.2 ++ rest.2)

/-- The straight-line script of one call of handle_user_input, with
the branch conditions resolved from the entry state and the input.
Mirrors main.py lines 124-203 statement by statement. -/
def turn_script (kb : KB) (llm : LLM) (s : AgentState) (raw : String) : List Op :=
  let u := strip raw
  match s.awaiting_field with
  | some field =>
    if field = Field.email ∧ is_valid_email u = false then
      [Op.saveTurn u invalid_email_msg, Op.print invalid_email_msg]
    else
      let l2 := s.lead_data.set field (strip u)
      match choose_next_field l2 with
      | some nf =>
        [Op.setLead field (strip u), Op.setAwaiting (some nf),
         Op.saveTurn u (prompt_map nf), Op.print (prompt_map nf)]
      | none =>
        let n := fmtOpt l2.name
        [Op.setLead field (strip u), Op.setAwaiting none,
         Op.saveTurn u (ack_msg n), Op.print (ack_msg n),
         Op.callCapture l2.name l2.email l2.platform,
         Op.saveTurn "" final_ack_msg, Op.print final_ack_msg,
         Op.resetLead]
  | none =>
    match detect_intent u with
    | Intent.greeting => [Op.saveTurn u greeting_msg, Op.print greeting_msg]
    | Intent.pricing =>
      [Op.saveTurn u (pricing_reply kb u), Op.print (pricing_reply kb u)]
    | Intent.high_intent =>
      [Op.resetLead, Op.setAwaiting (some Field.name),
       Op.saveTurn u high_intent_msg, Op.print high_intent_msg]
    | Intent.other =>
      let reply := llm_reply llm u
      [Op.saveTurn u reply, Op.print reply]

/-- Model of handle_user_input from main.py: run the script of the
turn from the entry state. -/
def handle_user_input (kb : KB) (llm : LLM) (s : AgentState) (raw : String) :
    AgentState × List Event :=
  runOps s (turn_script kb llm s raw)

/-- Run a sequence of turns, concatenating events. -/
def run_turns (kb : KB) (llm : LLM) (s : AgentState) : List String → AgentState × List Event
  | [] => (s, [])
  | u :: us =>
    let r := handle_user_input kb llm s u
    let rest := run_turns kb llm r.1 us
    (rest.1, r.2 ++ rest.2)

/-- The list of states after each turn of a run. -/
def post_states (kb : KB) (llm : LLM) (s : AgentState) : List String → List AgentState
  | [] => []
  | u :: us =>
    let s2 := (handle_user_input kb llm s u).1
    s2 :: post_states kb llm s2 us

/-- The capture events of an event list. -/
def captures (evs : List Event) : List Event :=
  evs.filter (fun ev => match ev with | Event.capture _ _ _ _ => true | _ => false)

/-- The printed lines of an event list, in order. -/
def prints (evs : List Event) : List String :=
  evs.filterMap (fun ev => match ev with | Event.print m => some m | _ => none)

/-! ### Lemmas about strip -/

theorem strip_data (s : String) : (strip s).data = stripCore s.data := rfl

theorem stripCore_idem (cs : List Char) : stripCore (stripCore cs) = stripCore cs := by
  unfold stripCore
  set ws := Char.isWhitespace with hws
  set m := cs.dropWhile ws with hm
  have hmm : m.dropWhile ws = m := List.dropWhile_idempotent ws cs
  set q := List.rdropWhile ws m with hq
  have hpre : q <+: m := List.rdropWhile_prefix ws m
  have hdq : q.dropWhile ws = q := by
    rw [List.dropWhile_eq_self_iff]
    intro hl
    obtain ⟨t, ht⟩ := hpre
    have hm0 : 0 < m.length := by
      rw [← ht, List.length_append]
      omega
    have hhead := (List.dropWhile_eq_self_iff).mp hmm hm0
    have hget : q.get ⟨0, hl⟩ = m.get ⟨0, hm0⟩ := by
      simp only [List.get_eq_getElem, ← ht]
      exact (List.getElem_append_left hl).symm
    rw [hget]
    exact hhead
  rw [hdq]
  exact List.rdropWhile_idempotent ws m

theorem strip_strip (s : String) : strip (strip s) = strip s :=
  congrArg String.mk (stripCore_idem s.data)

/-! ### The language of the email regex -/

/-- The language of the regex pattern, stated from the pattern text:
one-or-more non-at characters, an at sign, one-or-more non-at
characters, a dot, one-or-more non-at characters. -/
def matchesEmailPattern (cs : List Char) : Prop :=
  ∃ a b c, cs = a ++ '@' :: (b ++ '.' :: c) ∧ a ≠ [] ∧ b ≠ [] ∧ c ≠ [] ∧
    '@' ∉ a ∧ '@' ∉ b ∧ '@' ∉ c

theorem interior_dot_iff (r : List Char) :
    '.' ∈ (r.drop 1).dropLast ↔ ∃ b c, r = b ++ '.' :: c ∧ b ≠ [] ∧ c ≠ [] := by
  constructor
  · intro h
    obtain ⟨s1, t1, hst⟩ := List.append_of_mem h
    cases r with
    | nil => simp at hst
    | cons r0 rs =>
      have hrs : rs.dropLast = s1 ++ '.' :: t1 := by simpa using hst
      have hne : rs ≠ [] := by
        intro h0
        rw [h0] at hrs
        simp at hrs
      have h2 := List.dropLast_append_getLast hne
      refine ⟨r0 :: s1, t1 ++ [rs.getLast hne], ?_, by simp, by simp⟩
      have h3 : rs = s1 ++ '.' :: (t1 ++ [rs.getLast hne]) := by
        conv_lhs => rw [← h2]
        rw [hrs]
        simp
      rw [List.cons_append]
      exact congrArg (List.cons r0) h3
  · rintro ⟨b, c, rfl, hb, hc⟩
    cases b with
    | nil => exact absurd rfl hb
    | cons b0 bs =>
      obtain ⟨c1, cl, rfl⟩ : ∃ c1 cl, c = c1 ++ [cl] :=
        ⟨c.dropLast, c.getLast hc, (List.dropLast_append_getLast hc).symm⟩
      have hsplit : bs ++ '.' :: (c1 ++ [cl]) = (bs ++ '.' :: c1) ++ [cl] := by simp
      simp only [List.cons_append, List.drop_succ_cons, List.drop_zero, hsplit,
        List.dropLast_concat]
      simp

theorem afterAt_iff (r : List Char) :
    afterAt r = true ↔ '@' ∉ r ∧ ∃ b c, r = b ++ '.' :: c ∧ b ≠ [] ∧ c ≠ [] := by
  simp only [afterAt, Bool.and_eq_true, decide_eq_true_eq]
  rw [interior_dot_iff]

theorem scanAt_iff (cs : List Char) :
    scanAt cs = true ↔ ∃ a r, cs = a ++ '@' :: r ∧ '@' ∉ a ∧ afterAt r = true := by
  induction cs with
  | nil =>
    refine ⟨fun h => Bool.noConfusion h, ?_⟩
    rintro ⟨a, r, heq, -, -⟩
    exact absurd heq.symm (List.append_ne_nil_of_right_ne_nil a (List.cons_ne_nil _ _))
  | cons c cs ih =>
    by_cases hc : c = '@'
    · subst hc
      have he : scanAt ('@' :: cs) = afterAt cs := rfl
      rw [he]
      constructor
      · intro h
        exact ⟨[], cs, rfl, by simp, h⟩
      · rintro ⟨a, r, heq, ha, hr⟩
        cases a with
        | nil =>
          obtain rfl : cs = r := by simpa using heq
          exact hr
        | cons a0 as =>
          have h0 : a0 = '@' := by
            have := congrArg (List.head? ·) heq
            simpa using this.symm
          exact absurd (h0 ▸ List.mem_cons_self a0 as) ha
    · simp only [scanAt, if_neg hc]
      rw [ih]
      constructor
      · rintro ⟨a, r, rfl, ha, hr⟩
        refine ⟨c :: a, r, rfl, ?_, hr⟩
        intro hmem
        rcases List.mem_cons.mp hmem with h1 | h1
        · exact hc h1.symm
        · exact ha h1
      · rintro ⟨a, r, heq, ha, hr⟩
        cases a with
        | nil =>
          have : c = '@' := by simpa using congrArg (List.head? ·) heq
          exact absurd this hc
        | cons a0 as =>
          obtain ⟨rfl, hcs⟩ : c = a0 ∧ cs = as ++ '@' :: r := by simpa using heq
          exact ⟨as, r, hcs, fun h => ha (List.mem_cons_of_mem _ h), hr⟩

theorem emailCore_iff (cs : List Char) :
    emailCore cs = true ↔ matchesEmailPattern cs := by
  cases cs with
  | nil =>
    refine ⟨fun h => Bool.noConfusion h, ?_⟩
    rintro ⟨a, b, c, heq, -, -, -, -, -, -⟩
    exact absurd heq.symm (List.append_ne_nil_of_right_ne_nil a (List.cons_ne_nil _ _))
  | cons c0 rest =>
    by_cases hc : c0 = '@'
    · subst hc
      have he : emailCore ('@' :: rest) = false := rfl
      rw [he]
      refine ⟨fun h => Bool.noConfusion h, ?_⟩
      rintro ⟨a, b, c, heq, hane, -, -, ha, -, -⟩
      cases a with
      | nil => exact absurd rfl hane
      | cons a0 as =>
        have h0 : a0 = '@' := by
          have := congrArg (List.head? ·) heq
          simpa using this.symm
        exact absurd (h0 ▸ List.mem_cons_self a0 as) ha
    · simp only [emailCore, if_neg hc]
      rw [scanAt_iff]
      unfold matchesEmailPattern
      constructor
      · rintro ⟨a, r, heq, ha, hr⟩
        rw [afterAt_iff] at hr
        obtain ⟨hr1, b, c2, rfl, hb, hc2⟩ := hr
        have hane : a ≠ [] := by
          rintro rfl
          have : c0 = '@' := by simpa using congrArg (List.head? ·) heq
          exact hc this
        refine ⟨a, b, c2, heq, hane, hb, hc2, ha, ?_, ?_⟩
        · exact fun h => hr1 (List.mem_append_left _ h)
        · exact fun h => hr1 (List.mem_append_right _ (List.mem_cons_of_mem _ h))
      · rintro ⟨a, b, c2, heq, hane, hb, hc2, ha, hab, hac⟩
        refine ⟨a, b ++ '.' :: c2, heq, ha, (afterAt_iff _).mpr ⟨?_, b, c2, rfl, hb, hc2⟩⟩
        intro hmem
        rcases List.mem_append.mp hmem with h1 | h1
        · exact hab h1
        · rcases List.mem_cons.mp h1 with h2 | h2
          · exact absurd h2 (by decide)
          · exact hac h2

/-! ### Lemmas about the bounded history -/

/-- Record a list of (user, agent) entries into an empty memory deque. -/
def push_all (es : List (String × String)) : List (String × String) :=
  es.foldl (fun acc e => save_turn acc e.1 e.2) []

theorem save_turn_length (m : List (String × String)) (u a : String) :
    (save_turn m u a).length = m.length + 1 - (m.length + 1 - history_turns) := by
  simp [save_turn]

theorem save_turn_le (m : List (String × String)) (u a : String) :
    (save_turn m u a).length ≤ history_turns := by
  rw [save_turn_length]
  omega

theorem save_turn_eq_drop (m : List (String × String)) (e : String × String) :
    save_turn m e.1 e.2 = (m ++ [e]).drop (m.length + 1 - history_turns) := by
  simp [save_turn]

theorem foldl_save_turn (es : List (String × String)) :
    ∀ m : List (String × String), m.length ≤ history_turns →
      es.foldl (fun acc e => save_turn acc e.1 e.2) m
        = (m ++ es).drop (m.length + es.length - history_turns) := by
  induction es with
  | nil =>
    intro m hm
    simp [Nat.sub_eq_zero_of_le hm]
  | cons e es ih =>
    intro m hm
    rw [List.foldl_cons, ih _ (save_turn_le m e.1 e.2)]
    rw [save_turn_length, save_turn_eq_drop]
    rw [← List.drop_append_of_le_length (by simp)]
    rw [List.drop_drop]
    rw [List.append_assoc, List.singleton_append]
    congr 1
    simp only [List.length_cons]
    omega

theorem push_all_eq_drop (es : List (String × String)) :
    push_all es = es.drop (es.length - history_turns) := by
  unfold push_all
  rw [foldl_save_turn es [] (by simp [history_turns])]
  simp

/-! ### Branch lemmas for the turn handler -/

theorem handle_collecting_invalid (kb : KB) (llm : LLM) (s : AgentState) (raw : String)
    (h : s.awaiting_field = some Field.email) (hv : is_valid_email (strip raw) = false) :
    handle_user_input kb llm s raw =
      ({ s with memory := save_turn s.memory (strip raw) invalid_email_msg },
       [Event.print invalid_email_msg]) := by
  unfold handle_user_input turn_script
  rw [h]
  simp [h, hv, runOps, runOp]

theorem handle_collecting_next (kb : KB) (llm : LLM) (s : AgentState) (raw : String)
    (f nf : Field) (h : s.awaiting_field = some f)
    (hv : f = Field.email → is_valid_email (strip raw) = true)
    (hn : choose_next_field (s.lead_data.set f (strip raw)) = some nf) :
    handle_user_input kb llm s raw =
      ({ memory := save_turn s.memory (strip raw) (prompt_map nf),
         lead_data := s.lead_data.set f (strip raw),
         awaiting_field := some nf },
       [Event.print (prompt_map nf)]) := by
  have hcond : ¬ (f = Field.email ∧ is_valid_email (strip raw) = false) := by
    rintro ⟨h1, h2⟩
    rw [hv h1] at h2
    cases h2
  unfold handle_user_input turn_script
  rw [h]
  simp only [strip_strip]
  rw [if_neg hcond, hn]
  simp [runOps, runOp]

theorem handle_collecting_complete (kb : KB) (llm : LLM) (s : AgentState) (raw : String)
    (f : Field) (h : s.awaiting_field = some f)
    (hv : f = Field.email → is_valid_email (strip raw) = true)
    (hn : choose_next_field (s.lead_data.set f (strip raw)) = none) :
    handle_user_input kb llm s raw =
      ({ memory := save_turn (save_turn s.memory (strip raw)
            (ack_msg (fmtOpt (s.lead_data.set f (strip raw)).name))) "" final_ack_msg,
         lead_data := Lead.empty,
         awaiting_field := none },
       [Event.print (ack_msg (fmtOpt (s.lead_data.set f (strip raw)).name)),
        Event.capture (s.lead_data.set f (strip raw)).name
          (s.lead_data.set f (strip raw)).email
          (s.lead_data.set f (strip raw)).platform none,
        Event.print (lead_captured_msg (fmtOpt (s.lead_data.set f (strip raw)).name)
          (fmtOpt (s.lead_data.set f (strip raw)).email)
          (fmtOpt (s.lead_data.set f (strip raw)).platform)),
        Event.print final_ack_msg]) := by
  have hcond : ¬ (f = Field.email ∧ is_valid_email (strip raw) = false) := by
    rintro ⟨h1, h2⟩
    rw [hv h1] at h2
    cases h2
  unfold handle_user_input turn_script
  rw [h]
  simp only [strip_strip]
  rw [if_neg hcond, hn]
  simp [runOps, runOp]

theorem handle_idle_greeting (kb : KB) (llm : LLM) (s : AgentState) (raw : String)
    (h : s.awaiting_field = none) (hi : detect_intent (strip raw) = Intent.greeting) :
    handle_user_input kb llm s raw =
      ({ s with memory := save_turn s.memory (strip raw) greeting_msg },
       [Event.print greeting_msg]) := by
  unfold handle_user_input turn_script
  rw [h]
  simp [h, hi, runOps, runOp]

theorem handle_idle_pricing (kb : KB) (llm : LLM) (s : AgentState) (raw : String)
    (h : s.awaiting_field = none) (hi : detect_intent (strip raw) = Intent.pricing) :
    handle_user_input kb llm s raw =
      ({ s with memory := save_turn s.memory (strip raw) (pricing_reply kb (strip raw)) },
       [Event.print (pricing_reply kb (strip raw))]) := by
  unfold handle_user_input turn_script
  rw [h]
  simp [h, hi, runOps, runOp]

theorem handle_idle_high (kb : KB) (llm : LLM) (s : AgentState) (raw : String)
    (h : s.awaiting_field = none) (hi : detect_intent (strip raw) = Intent.high_intent) :
    handle_user_input kb llm s raw =
      ({ memory := save_turn s.memory (strip raw) high_intent_msg,
         lead_data := Lead.empty,
         awaiting_field := some Field.name },
       [Event.print high_intent_msg]) := by
  unfold handle_user_input turn_script
  rw [h]
  simp [h, hi, runOps, runOp]

theorem handle_idle_other (kb : KB) (llm : LLM) (s : AgentState) (raw : String)
    (h : s.awaiting_field = none) (hi : detect_intent (strip raw) = Intent.other) :
    handle_user_input kb llm s raw =
      ({ s with memory := save_turn s.memory (strip raw) (llm_reply llm (strip raw)) },
       [Event.print (llm_reply llm (strip raw))]) := by
  unfold handle_user_input turn_script
  rw [h]
  simp [h, hi, runOps, runOp]

/-- Exhaustive case split of one turn: exactly one of the seven
branches of handle_user_input applies. -/
theorem handle_cases (s : AgentState) (raw : String) :
    (s.awaiting_field = some Field.email ∧ is_valid_email (strip raw) = false) ∨
    (∃ f nf, s.awaiting_field = some f ∧ (f = Field.email → is_valid_email (strip raw) = true) ∧
      choose_next_field (s.lead_data.set f (strip raw)) = some nf) ∨
    (∃ f, s.awaiting_field = some f ∧ (f = Field.email → is_valid_email (strip raw) = true) ∧
      choose_next_field (s.lead_data.set f (strip raw)) = none) ∨
    (s.awaiting_field = none ∧ detect_intent (strip raw) = Intent.greeting) ∨
    (s.awaiting_field = none ∧ detect_intent (strip raw) = Intent.pricing) ∨
    (s.awaiting_field = none ∧ detect_intent (strip raw) = Intent.high_intent) ∨
    (s.awaiting_field = none ∧ detect_intent (strip raw) = Intent.other) := by
  cases hA : s.awaiting_field with
  | none =>
    cases hI : detect_intent (strip raw)
    · exact Or.inr (Or.inr (Or.inr (Or.inr (Or.inr (Or.inl ⟨rfl, rfl⟩)))))
    · exact Or.inr (Or.inr (Or.inr (Or.inr (Or.inl ⟨rfl, rfl⟩))))
    · exact Or.inr (Or.inr (Or.inr (Or.inl ⟨rfl, rfl⟩)))
    · exact Or.inr (Or.inr (Or.inr (Or.inr (Or.inr (Or.inr ⟨rfl, rfl⟩)))))
  | some f =>
    by_cases he : f = Field.email ∧ is_valid_email (strip raw) = false
    · exact Or.inl ⟨by rw [he.1], he.2⟩
    · have hv : f = Field.email → is_valid_email (strip raw) = true := by
        intro h1
        cases hvv : is_valid_email (strip raw) with
        | false => exact absurd ⟨h1, hvv⟩ he
        | true => rfl
      cases hN : choose_next_field (s.lead_data.set f (strip raw)) with
      | some nf => exact Or.inr (Or.inl ⟨f, nf, rfl, hv, hN⟩)
      | none => exact Or.inr (Or.inr (Or.inl ⟨f, rfl, hv, hN⟩))

/-! ### Capture counting and lead-record well-formedness -/

/-- Count the transitions of awaiting_field from non-none to none along
a run, given the awaiting_field value before the run. -/
def countDrops : Option Field → List (Option Field) → Nat
  | _, [] => 0
  | prev, a :: rest =>
    (if prev ≠ none ∧ a = none then 1 else 0) + countDrops a rest

theorem captures_append (e1 e2 : List Event) :
    captures (e1 ++ e2) = captures e1 ++ captures e2 :=
  List.filter_append e1 e2

/-- One turn emits a capture event exactly when awaiting_field drops
from non-none to none across the turn. -/
theorem captures_length_turn (kb : KB) (llm : LLM) (s : AgentState) (raw : String) :
    (captures (handle_user_input kb llm s raw).2).length
      = if s.awaiting_field ≠ none ∧ (handle_user_input kb llm s raw).1.awaiting_field = none
        then 1 else 0 := by
  rcases handle_cases s raw with ⟨h, hv⟩ | ⟨f, nf, h, hv, hn⟩ | ⟨f, h, hv, hn⟩ |
    ⟨h, hi⟩ | ⟨h, hi⟩ | ⟨h, hi⟩ | ⟨h, hi⟩
  · rw [handle_collecting_invalid kb llm s raw h hv]
    simp [captures, h]
  · rw [handle_collecting_next kb llm s raw f nf h hv hn]
    simp [captures]
  · rw [handle_collecting_complete kb llm s raw f h hv hn]
    simp [captures, h]
  · rw [handle_idle_greeting kb llm s raw h hi]
    simp [captures, h]
  · rw [handle_idle_pricing kb llm s raw h hi]
    simp [captures, h]
  · rw [handle_idle_high kb llm s raw h hi]
    simp [captures]
  · rw [handle_idle_other kb llm s raw h hi]
    simp [captures, h]

/-- Over any run, the number of capture events equals the number of
non-none-to-none transitions of awaiting_field. -/
theorem captures_run_eq_drops (kb : KB) (llm : LLM) :
    ∀ (us : List String) (s : AgentState),
      (captures (run_turns kb llm s us).2).length
        = countDrops s.awaiting_field
            ((post_states kb llm s us).map AgentState.awaiting_field) := by
  intro us
  induction us with
  | nil => intro s; simp [run_turns, post_states, captures, countDrops]
  | cons u us ih =>
    intro s
    show (captures ((handle_user_input kb llm s u).2
        ++ (run_turns kb llm (handle_user_input kb llm s u).1 us).2)).length = _
    rw [captures_append, List.length_append]
    rw [captures_length_turn, ih]
    simp only [post_states, List.map_cons, countDrops]

/-- Value check for a stored lead field: non-empty and stable under
stripping. -/
def okVal (v : String) : Bool := decide (v ≠ "") && decide (strip v = v)

/-- Value check lifted to a possibly absent field. -/
def okOpt : Option String → Bool
  | none => true
  | some v => okVal v

/-- Well-formedness of the lead record: every stored field is a
non-empty stripped string. -/
def LeadWF (l : Lead) : Prop :=
    okOpt l.name = true ∧ okOpt l.email = true ∧ okOpt l.platform = true

theorem LeadWF_empty : LeadWF Lead.empty := ⟨rfl, rfl, rfl⟩

theorem LeadWF_set {l : Lead} (hl : LeadWF l) {v : String} (hv : okVal v = true)
    (f : Field) : LeadWF (l.set f v) := by
  obtain ⟨h1, h2, h3⟩ := hl
  cases f
  · exact ⟨hv, h2, h3⟩
  · exact ⟨h1, hv, h3⟩
  · exact ⟨h1, h2, hv⟩

theorem okVal_strip {raw : String} (hnb : strip raw ≠ "") : okVal (strip raw) = true := by
  simp [okVal, hnb, strip_strip]

theorem choose_none_all_some {l : Lead} (hn : choose_next_field l = none) :
    (∃ vn, l.name = some vn) ∧ (∃ ve, l.email = some ve) ∧ (∃ vp, l.platform = some vp) := by
  unfold choose_next_field at hn
  by_cases h1 : l.name = none
  · rw [if_pos h1] at hn; cases hn
  · by_cases h2 : l.email = none
    · rw [if_neg h1, if_pos h2] at hn; cases hn
    · by_cases h3 : l.platform = none
      · rw [if_neg h1, if_neg h2, if_pos h3] at hn; cases hn
      · exact ⟨Option.ne_none_iff_exists'.mp h1, Option.ne_none_iff_exists'.mp h2,
          Option.ne_none_iff_exists'.mp h3⟩

theorem okOpt_some_iff {o : Option String} {v : String} (ho : o = some v) :
    okOpt o = true ↔ (v ≠ "" ∧ strip v = v) := by
  subst ho
  simp [okOpt, okVal]

/-! ### Further helper lemmas and concrete fixtures -/

theorem is_valid_email_strip (s : String) : is_valid_email (strip s) = is_valid_email s := by
  unfold is_valid_email
  rw [strip_data, stripCore_idem]

theorem runOps_memory_le :
    ∀ (ops : List Op) (s : AgentState), s.memory.length ≤ history_turns →
      ((runOps s ops).1.memory).length ≤ history_turns := by
  intro ops
  induction ops with
  | nil => intro s h; exact h
  | cons op ops ih =>
    intro s h
    cases op with
    | print m => exact ih s h
    | saveTurn u a => exact ih _ (save_turn_le _ _ _)
    | setAwaiting f => exact ih _ h
    | setLead f v => exact ih _ h
    | resetLead => exact ih _ h
    | callCapture n e p => exact ih _ h

theorem handle_memory_le (kb : KB) (llm : LLM) (s : AgentState) (raw : String)
    (h : s.memory.length ≤ history_turns) :
    ((handle_user_input kb llm s raw).1.memory).length ≤ history_turns :=
  runOps_memory_le _ s h

theorem run_turns_memory_le (kb : KB) (llm : LLM) :
    ∀ (us : List String) (s : AgentState), s.memory.length ≤ history_turns →
      ((run_turns kb llm s us).1.memory).length ≤ history_turns := by
  intro us
  induction us with
  | nil => intro s h; exact h
  | cons u us ih => intro s h; exact ih _ (handle_memory_le kb llm s u h)

/-- A concrete knowledge document for concrete instantiations. -/
def sampleKB : KB :=
  ⟨⟨some "$9", some "10 videos", some "720p", []⟩,
   ⟨some "$29", some "100 videos", some "1080p", ["API access"]⟩,
   ⟨some "7-day refund", some "24/7 chat"⟩⟩

/-- A concrete state collecting the platform field, name and email
already stored. -/
def stCollectPlat : AgentState :=
  ⟨[], ⟨some "Jane Doe", some "jane@doe.com", none⟩, some Field.platform⟩

/-- A concrete state collecting the email field, name already stored. -/
def stCollectEmail : AgentState :=
  ⟨[], ⟨some "Jane Doe", none, none⟩, some Field.email⟩

/-! ### Claim theorems -/

/-- C3: every input whose lowercase form contains at least one
high-intent keyword and at least one pricing keyword is classified as
high_intent, because the high-intent group is checked first. -/
theorem autostream_C3 (text : String)
    (hh : ∃ tok ∈ high_intent_tokens, tok.data <:+: lowerL text)
    (hp : ∃ tok ∈ pricing_tokens, tok.data <:+: lowerL text) :
    detect_intent text = Intent.high_intent := by
  unfold detect_intent
  have h1 : high_intent_tokens.any (fun tok => containsSub (lowerL text) tok) = true := by
    rw [List.any_eq_true]
    obtain ⟨tok, htok, hinf⟩ := hh
    exact ⟨tok, htok, by simp [containsSub, hinf]⟩
  simp [h1]

/-- Witness for C3 at a message with both a high-intent and a pricing
keyword. -/
theorem autostream_C3_witness :
    (∃ tok ∈ high_intent_tokens,
      tok.data <:+: lowerL "I want to sign up, what is the price?")
    ∧ (∃ tok ∈ pricing_tokens,
      tok.data <:+: lowerL "I want to sign up, what is the price?")
    ∧ detect_intent "I want to sign up, what is the price?" = Intent.high_intent :=
  ⟨by decide, by decide,
    autostream_C3 "I want to sign up, what is the price?" (by decide) (by decide)⟩

/-- C4: while collecting the email field, an input failing the email
validator leaves the state unchanged except that the fixed re-prompt is
emitted and the turn is still recorded into history. -/
theorem autostream_C4 (kb : KB) (llm : LLM) (s : AgentState) (raw : String)
    (h : s.awaiting_field = some Field.email)
    (hv : is_valid_email raw = false) :
    (handle_user_input kb llm s raw).2 = [Event.print invalid_email_msg]
    ∧ (handle_user_input kb llm s raw).1.awaiting_field = some Field.email
    ∧ (handle_user_input kb llm s raw).1.lead_data = s.lead_data
    ∧ (handle_user_input kb llm s raw).1.memory
        = save_turn s.memory (strip raw) invalid_email_msg := by
  have hv2 : is_valid_email (strip raw) = false := by
    rw [is_valid_email_strip]
    exact hv
  rw [handle_collecting_invalid kb llm s raw h hv2]
  exact ⟨rfl, h, rfl, rfl⟩

/-- Witness for C4 at a concrete collecting-email state and a concrete
invalid input. -/
theorem autostream_C4_witness :
    stCollectEmail.awaiting_field = some Field.email
    ∧ is_valid_email "not-an-email" = false
    ∧ (handle_user_input sampleKB none stCollectEmail "not-an-email").2
        = [Event.print invalid_email_msg]
    ∧ (handle_user_input sampleKB none stCollectEmail "not-an-email").1.lead_data
        = stCollectEmail.lead_data :=
  ⟨rfl, by decide,
    (autostream_C4 sampleKB none stCollectEmail "not-an-email" rfl (by decide)).1,
    (autostream_C4 sampleKB none stCollectEmail "not-an-email" rfl (by decide)).2.2.1⟩

/-- C5: the validator accepts exactly the strings whose stripped form
is in the language of the regex pattern; the three documented examples
evaluate as stated; the validator is stable under re-stripping. -/
theorem autostream_C5 :
    (∀ s : String, is_valid_email s = true ↔ matchesEmailPattern (stripCore s.data))
    ∧ is_valid_email "a@b.com" = true
    ∧ is_valid_email "not-an-email" = false
    ∧ is_valid_email " a@b.co " = true
    ∧ (∀ s : String, is_valid_email (strip s) = is_valid_email s) :=
  ⟨fun s => emailCore_iff (stripCore s.data), by decide, by decide, by decide,
    is_valid_email_strip⟩

/-- C9: when the fallback responder handle is absent llm_reply returns
the fixed degraded-mode message, and when the responder raises it
returns the fixed error message; llm_reply is total, so no exception
escapes the controller. -/
theorem autostream_C9 :
    (∀ prompt : String, llm_reply none prompt = llm_unavailable_msg)
    ∧ (∀ (f : String → LLMResp) (prompt : String), f prompt = LLMResp.raises →
        llm_reply (some f) prompt = llm_error_msg) :=
  ⟨fun _ => rfl, fun f prompt hf => by simp [llm_reply, hf]⟩

/-- Witness for C9 at a concrete prompt and an always-raising
responder. -/
theorem autostream_C9_witness :
    llm_reply none "tell me a joke" = llm_unavailable_msg
    ∧ (fun (_ : String) => LLMResp.raises) "tell me a joke" = LLMResp.raises
    ∧ llm_reply (some (fun _ => LLMResp.raises)) "tell me a joke" = llm_error_msg :=
  ⟨autostream_C9.1 "tell me a joke", rfl,
    autostream_C9.2 (fun _ => LLMResp.raises) "tell me a joke" rfl⟩

/-- C7: on a funnel-completing turn the event trace is exactly the
acknowledgment print, the capture call, the capture confirmation print
and the closing print, in that order; the three printed agent
utterances are the ack, the confirmation and the closing line; and the
history gains exactly two entries, the ack against the user text and
the closing line against an empty user-text key. -/
theorem autostream_C7 (kb : KB) (llm : LLM) (s : AgentState) (raw : String) (f : Field)
    (h : s.awaiting_field = some f)
    (hv : f = Field.email → is_valid_email (strip raw) = true)
    (hn : choose_next_field (s.lead_data.set f (strip raw)) = none) :
    (handle_user_input kb llm s raw).2 =
      [Event.print (ack_msg (fmtOpt ((s.lead_data.set f (strip raw)).name))),
       Event.capture (s.lead_data.set f (strip raw)).name
         (s.lead_data.set f (strip raw)).email
         (s.lead_data.set f (strip raw)).platform none,
       Event.print (lead_captured_msg (fmtOpt ((s.lead_data.set f (strip raw)).name))
         (fmtOpt ((s.lead_data.set f (strip raw)).email))
         (fmtOpt ((s.lead_data.set f (strip raw)).platform))),
       Event.print final_ack_msg]
    ∧ prints (handle_user_input kb llm s raw).2 =
      [ack_msg (fmtOpt ((s.lead_data.set f (strip raw)).name)),
       lead_captured_msg (fmtOpt ((s.lead_data.set f (strip raw)).name))
         (fmtOpt ((s.lead_data.set f (strip raw)).email))
         (fmtOpt ((s.lead_data.set f (strip raw)).platform)),
       final_ack_msg]
    ∧ (handle_user_input kb llm s raw).1.memory =
        save_turn (save_turn s.memory (strip raw)
          (ack_msg (fmtOpt ((s.lead_data.set f (strip raw)).name)))) "" final_ack_msg := by
  rw [handle_collecting_complete kb llm s raw f h hv hn]
  exact ⟨rfl, rfl, rfl⟩

/-- Witness for C7 at a concrete completing turn. -/
theorem autostream_C7_witness :
    stCollectPlat.awaiting_field = some Field.platform
    ∧ choose_next_field (stCollectPlat.lead_data.set Field.platform (strip "YouTube")) = none
    ∧ prints (handle_user_input sampleKB none stCollectPlat "YouTube").2 =
      [ack_msg (fmtOpt ((stCollectPlat.lead_data.set Field.platform (strip "YouTube")).name)),
       lead_captured_msg
         (fmtOpt ((stCollectPlat.lead_data.set Field.platform (strip "YouTube")).name))
         (fmtOpt ((stCollectPlat.lead_data.set Field.platform (strip "YouTube")).email))
         (fmtOpt ((stCollectPlat.lead_data.set Field.platform (strip "YouTube")).platform)),
       final_ack_msg] :=
  ⟨rfl, by decide,
    (autostream_C7 sampleKB none stCollectPlat "YouTube" Field.platform rfl
      (by decide) (by decide)).2.1⟩

/-- C8: from the idle state, a turn classified as pricing replies with
the policy answer when the message mentions a refund, support or policy
keyword and with the pricing answer otherwise, and leaves awaiting
field and lead record unchanged. -/
theorem autostream_C8 (kb : KB) (llm : LLM) (s : AgentState) (raw : String)
    (h : s.awaiting_field = none)
    (hi : detect_intent (strip raw) = Intent.pricing) :
    (handle_user_input kb llm s raw).2 = [Event.print (pricing_reply kb (strip raw))]
    ∧ pricing_reply kb (strip raw)
        = (if ∃ tok ∈ policy_tokens, tok.data <:+: lowerL (strip raw)
           then rag_policy_answer kb else rag_pricing_answer kb)
    ∧ (handle_user_input kb llm s raw).1.awaiting_field = none
    ∧ (handle_user_input kb llm s raw).1.lead_data = s.lead_data := by
  rw [handle_idle_pricing kb llm s raw h hi]
  refine ⟨rfl, ?_, h, rfl⟩
  unfold pricing_reply
  by_cases hc : ∃ tok ∈ policy_tokens, tok.data <:+: lowerL (strip raw)
  · obtain ⟨tok, htok, hinf⟩ := hc
    have hb : policy_tokens.any (fun tok => containsSub (lowerL (strip raw)) tok) = true := by
      rw [List.any_eq_true]
      exact ⟨tok, htok, by simp [containsSub, hinf]⟩
    rw [if_pos hb, if_pos ⟨tok, htok, hinf⟩]
  · have hb : policy_tokens.any (fun tok => containsSub (lowerL (strip raw)) tok) = false := by
      rw [List.any_eq_false]
      intro tok htok
      simp only [containsSub, decide_eq_true_eq]
      exact fun hinf => hc ⟨tok, htok, hinf⟩
    rw [hb]
    rw [if_neg hc]
    rfl

/-- Witness for C8 at the idle state with a pricing question and with a
policy question. -/
theorem autostream_C8_witness :
    initState.awaiting_field = none
    ∧ detect_intent (strip "what is the price?") = Intent.pricing
    ∧ (handle_user_input sampleKB none initState "what is the price?").2
        = [Event.print (pricing_reply sampleKB (strip "what is the price?"))]
    ∧ (handle_user_input sampleKB none initState "what is the price?").1.lead_data
        = initState.lead_data :=
  ⟨rfl, by decide,
    (autostream_C8 sampleKB none initState "what is the price?" rfl (by decide)).1,
    (autostream_C8 sampleKB none initState "what is the price?" rfl (by decide)).2.2.2⟩

/-- C10: greeting detection is raw substring search, so any text whose
lowercase form contains the two letters of hi inside another word, with
no high-intent and no pricing token, classifies as greeting, and from
the idle state such a turn gets the fixed greeting reply rather than
the fallback responder. -/
theorem autostream_C10 :
    (∀ text : String,
      "hi".data <:+: lowerL text →
      (∀ tok ∈ high_intent_tokens, ¬ (tok.data <:+: lowerL text)) →
      (∀ tok ∈ pricing_tokens, ¬ (tok.data <:+: lowerL text)) →
      detect_intent text = Intent.greeting)
    ∧ (∀ (kb : KB) (llm : LLM) (s : AgentState) (raw : String),
        s.awaiting_field = none → detect_intent (strip raw) = Intent.greeting →
        handle_user_input kb llm s raw =
          ({ s with memory := save_turn s.memory (strip raw) greeting_msg },
           [Event.print greeting_msg])) := by
  constructor
  · intro text hhi hh hp
    unfold detect_intent
    have h1 : high_intent_tokens.any (fun tok => containsSub (lowerL text) tok) = false := by
      rw [List.any_eq_false]
      intro tok htok
      simp only [containsSub, decide_eq_true_eq]
      exact hh tok htok
    have h2 : pricing_tokens.any (fun tok => containsSub (lowerL text) tok) = false := by
      rw [List.any_eq_false]
      intro tok htok
      simp only [containsSub, decide_eq_true_eq]
      exact hp tok htok
    have h3 : greeting_tokens.any (fun tok => containsSub (lowerL text) tok) = true := by
      rw [List.any_eq_true]
      refine ⟨"hi", by simp [greeting_tokens], by simp [containsSub, hhi]⟩
    simp [h1, h2, h3]
  · intro kb llm s raw h hi
    exact handle_idle_greeting kb llm s raw h hi

/-- Witness for C10 at the input containing hi only inside the word
this. -/
theorem autostream_C10_witness :
    "hi".data <:+: lowerL "this is broken"
    ∧ detect_intent "this is broken" = Intent.greeting
    ∧ handle_user_input sampleKB none initState "this is broken" =
        ({ initState with
            memory := save_turn initState.memory (strip "this is broken") greeting_msg },
         [Event.print greeting_msg]) :=
  ⟨by decide,
    autostream_C10.1 "this is broken" (by decide) (by decide) (by decide),
    autostream_C10.2 sampleKB none initState "this is broken" rfl (by decide)⟩

/-- C2: whenever a capture event is emitted, the awaiting field at the
moment of the call is already none (clear-before-invoke), and the state
resulting from a capture turn has awaiting field none and an empty lead
record. -/
theorem autostream_C2 (kb : KB) (llm : LLM) (s : AgentState) (raw : String) :
    (∀ n e p pf, Event.capture n e p pf ∈ (handle_user_input kb llm s raw).2 → pf = none)
    ∧ (captures (handle_user_input kb llm s raw).2 ≠ [] →
        (handle_user_input kb llm s raw).1.awaiting_field = none
        ∧ (handle_user_input kb llm s raw).1.lead_data = Lead.empty) := by
  rcases handle_cases s raw with ⟨h, hv⟩ | ⟨f, nf, h, hv, hn⟩ | ⟨f, h, hv, hn⟩ |
    ⟨h, hi⟩ | ⟨h, hi⟩ | ⟨h, hi⟩ | ⟨h, hi⟩
  · rw [handle_collecting_invalid kb llm s raw h hv]
    refine ⟨?_, ?_⟩
    · intro n e p pf hmem
      simp at hmem
    · intro hne
      simp [captures] at hne
  · rw [handle_collecting_next kb llm s raw f nf h hv hn]
    refine ⟨?_, ?_⟩
    · intro n e p pf hmem
      simp at hmem
    · intro hne
      simp [captures] at hne
  · rw [handle_collecting_complete kb llm s raw f h hv hn]
    refine ⟨?_, fun _ => ⟨rfl, rfl⟩⟩
    intro n e p pf hmem
    simp at hmem
    exact hmem.2.2.2
  · rw [handle_idle_greeting kb llm s raw h hi]
    refine ⟨?_, ?_⟩
    · intro n e p pf hmem
      simp at hmem
    · intro hne
      simp [captures] at hne
  · rw [handle_idle_pricing kb llm s raw h hi]
    refine ⟨?_, ?_⟩
    · intro n e p pf hmem
      simp at hmem
    · intro hne
      simp [captures] at hne
  · rw [handle_idle_high kb llm s raw h hi]
    refine ⟨?_, ?_⟩
    · intro n e p pf hmem
      simp at hmem
    · intro hne
      simp [captures] at hne
  · rw [handle_idle_other kb llm s raw h hi]
    refine ⟨?_, ?_⟩
    · intro n e p pf hmem
      simp at hmem
    · intro hne
      simp [captures] at hne

/-- Witness for C2 at a concrete completing turn with a capture
event. -/
theorem autostream_C2_witness :
    captures (handle_user_input sampleKB none stCollectPlat "YouTube").2 ≠ []
    ∧ ((handle_user_input sampleKB none stCollectPlat "YouTube").1.awaiting_field = none
      ∧ (handle_user_input sampleKB none stCollectPlat "YouTube").1.lead_data = Lead.empty) :=
  ⟨by decide, (autostream_C2 sampleKB none stCollectPlat "YouTube").2 (by decide)⟩

/-- C6: the history deque built by recording entries holds exactly the
most recent entries up to the capacity, in insertion order with the
oldest evicted first, and the memory of any run of the controller never
exceeds the capacity. -/
theorem autostream_C6 :
    (∀ es : List (String × String), push_all es = es.drop (es.length - history_turns))
    ∧ (∀ (m : List (String × String)) (u a : String),
        (save_turn m u a).length ≤ history_turns)
    ∧ (∀ (kb : KB) (llm : LLM) (s : AgentState) (us : List String),
        s.memory.length ≤ history_turns →
        ((run_turns kb llm s us).1.memory).length ≤ history_turns) :=
  ⟨push_all_eq_drop, save_turn_le,
    fun kb llm s us h => run_turns_memory_le kb llm us s h⟩

/-- Witness for C6: seven recorded entries leave the last six, and a
concrete run stays within capacity. -/
theorem autostream_C6_witness :
    push_all [("u1", "a1"), ("u2", "a2"), ("u3", "a3"), ("u4", "a4"), ("u5", "a5"),
        ("u6", "a6"), ("u7", "a7")]
      = [("u2", "a2"), ("u3", "a3"), ("u4", "a4"), ("u5", "a5"), ("u6", "a6"), ("u7", "a7")]
    ∧ initState.memory.length ≤ history_turns
    ∧ ((run_turns sampleKB none initState
        ["hi there", "what is the price?"]).1.memory).length ≤ history_turns :=
  ⟨(autostream_C6.1 [("u1", "a1"), ("u2", "a2"), ("u3", "a3"), ("u4", "a4"), ("u5", "a5"),
        ("u6", "a6"), ("u7", "a7")]).trans (by decide),
    by decide,
    autostream_C6.2.2 sampleKB none initState ["hi there", "what is the price?"] (by decide)⟩

/-- C1: in a turn fed a non-blank utterance from a well-formed state,
at most one capture event is emitted; one is emitted exactly when the
turn stores its value and the lead record then holds all three fields;
every capture event carries three present, non-empty, stripped values;
well-formedness of the lead record is preserved; and over any run the
number of capture events equals the number of transitions of the
awaiting field from non-none to none, so a completed funnel fires the
capture exactly once. -/
theorem autostream_C1 (kb : KB) (llm : LLM) (s : AgentState) (raw : String)
    (hwf : LeadWF s.lead_data) (hnb : strip raw ≠ "") :
    (captures (handle_user_input kb llm s raw).2).length ≤ 1
    ∧ ((captures (handle_user_input kb llm s raw).2).length = 1 ↔
        ∃ f, s.awaiting_field = some f
          ∧ (f = Field.email → is_valid_email (strip raw) = true)
          ∧ choose_next_field (s.lead_data.set f (strip raw)) = none)
    ∧ (∀ n e p pf, Event.capture n e p pf ∈ (handle_user_input kb llm s raw).2 →
        ∃ vn ve vp, n = some vn ∧ e = some ve ∧ p = some vp
          ∧ vn ≠ "" ∧ strip vn = vn ∧ ve ≠ "" ∧ strip ve = ve ∧ vp ≠ "" ∧ strip vp = vp)
    ∧ LeadWF (handle_user_input kb llm s raw).1.lead_data
    ∧ (∀ us : List String,
        (captures (run_turns kb llm s us).2).length
          = countDrops s.awaiting_field
              ((post_states kb llm s us).map AgentState.awaiting_field)) := by
  refine ⟨?_, ?_, ?_, ?_, fun us => captures_run_eq_drops kb llm us s⟩
  · rw [captures_length_turn]
    split_ifs <;> omega
  · constructor
    · intro hcount
      rcases handle_cases s raw with ⟨h, hv⟩ | ⟨f, nf, h, hv, hn⟩ | ⟨f, h, hv, hn⟩ |
        ⟨h, hi⟩ | ⟨h, hi⟩ | ⟨h, hi⟩ | ⟨h, hi⟩
      · rw [handle_collecting_invalid kb llm s raw h hv] at hcount
        simp [captures] at hcount
      · rw [handle_collecting_next kb llm s raw f nf h hv hn] at hcount
        simp [captures] at hcount
      · exact ⟨f, h, hv, hn⟩
      · rw [handle_idle_greeting kb llm s raw h hi] at hcount
        simp [captures] at hcount
      · rw [handle_idle_pricing kb llm s raw h hi] at hcount
        simp [captures] at hcount
      · rw [handle_idle_high kb llm s raw h hi] at hcount
        simp [captures] at hcount
      · rw [handle_idle_other kb llm s raw h hi] at hcount
        simp [captures] at hcount
    · rintro ⟨f, h, hv, hn⟩
      rw [handle_collecting_complete kb llm s raw f h hv hn]
      rfl
  · intro n e p pf hmem
    rcases handle_cases s raw with ⟨h, hv⟩ | ⟨f, nf, h, hv, hn⟩ | ⟨f, h, hv, hn⟩ |
      ⟨h, hi⟩ | ⟨h, hi⟩ | ⟨h, hi⟩ | ⟨h, hi⟩
    · rw [handle_collecting_invalid kb llm s raw h hv] at hmem
      simp at hmem
    · rw [handle_collecting_next kb llm s raw f nf h hv hn] at hmem
      simp at hmem
    · rw [handle_collecting_complete kb llm s raw f h hv hn] at hmem
      simp at hmem
      have hwf2 : LeadWF (s.lead_data.set f (strip raw)) :=
        LeadWF_set hwf (okVal_strip hnb) f
      obtain ⟨⟨vn, hvn⟩, ⟨ve, hve⟩, ⟨vp, hvp⟩⟩ := choose_none_all_some hn
      have h5 := (okOpt_some_iff hvn).mp hwf2.1
      have h6 := (okOpt_some_iff hve).mp hwf2.2.1
      have h7 := (okOpt_some_iff hvp).mp hwf2.2.2
      exact ⟨vn, ve, vp, by rw [hmem.1, hvn], by rw [hmem.2.1, hve],
        by rw [hmem.2.2.1, hvp], h5.1, h5.2, h6.1, h6.2, h7.1, h7.2⟩
    · rw [handle_idle_greeting kb llm s raw h hi] at hmem
      simp at hmem
    · rw [handle_idle_pricing kb llm s raw h hi] at hmem
      simp at hmem
    · rw [handle_idle_high kb llm s raw h hi] at hmem
      simp at hmem
    · rw [handle_idle_other kb llm s raw h hi] at hmem
      simp at hmem
  · rcases handle_cases s raw with ⟨h, hv⟩ | ⟨f, nf, h, hv, hn⟩ | ⟨f, h, hv, hn⟩ |
      ⟨h, hi⟩ | ⟨h, hi⟩ | ⟨h, hi⟩ | ⟨h, hi⟩
    · rw [handle_collecting_invalid kb llm s raw h hv]
      exact hwf
    · rw [handle_collecting_next kb llm s raw f nf h hv hn]
      exact LeadWF_set hwf (okVal_strip hnb) f
    · rw [handle_collecting_complete kb llm s raw f h hv hn]
      exact LeadWF_empty
    · rw [handle_idle_greeting kb llm s raw h hi]
      exact hwf
    · rw [handle_idle_pricing kb llm s raw h hi]
      exact hwf
    · rw [handle_idle_high kb llm s raw h hi]
      exact LeadWF_empty
    · rw [handle_idle_other kb llm s raw h hi]
      exact hwf

/-- Witness for C1 at a concrete completing turn from a well-formed
collecting state. -/
theorem autostream_C1_witness :
    LeadWF stCollectPlat.lead_data
    ∧ strip "YouTube" ≠ ""
    ∧ ((captures (handle_user_input sampleKB none stCollectPlat "YouTube").2).length = 1 ↔
        ∃ f, stCollectPlat.awaiting_field = some f
          ∧ (f = Field.email → is_valid_email (strip "YouTube") = true)
          ∧ choose_next_field (stCollectPlat.lead_data.set f (strip "YouTube")) = none) :=
  ⟨⟨by decide, by decide, by decide⟩, by decide,
    (autostream_C1 sampleKB none stCollectPlat "YouTube"
      ⟨by decide, by decide, by decide⟩ (by decide)).2.1⟩

end AutoStream
